import Mathlib

/-!
Verification development for the reup time-series pipeline.

The Python sources are shallowly embedded as Lean definitions:

* `polygon_time_series/polygon_time_series.py` — `init_seconds_df` and
  `get_seconds_df`, the per-second resampler over quote and trade tick
  streams (`initSecondsTimestamps`, `processSecond`, `runSeconds`,
  `get_seconds_df` below).
* `features_second/features_second.py` — `get_output_df`, the expanding
  (day-level) and rolling-window feature engine.
* `features_day/features_day.py` — `get_time_window_df`, the open/close
  boundary slicer.

Timestamps are natural numbers (nanoseconds for ticks, whole seconds for
series rows); prices are rationals; nullable cells are `Option` values
(`none` plays the role of `pd.NA` / `NaN`).  Fallible reads (pandas `.at`
with a missing label, `.index[0]` on an empty selection) are modelled with
`Option`, `none` standing for the raised exception.
-/

namespace Reup

/-- A quote tick message: one row of the quotes data frame consumed by
`get_seconds_df`.  Timestamps are integer nanoseconds since epoch. -/
structure Quote where
  sip_timestamp : ℕ
  bid_price : ℚ
  bid_size : ℕ
  ask_price : ℚ
  ask_size : ℕ
  deriving Repr, DecidableEq

/-- A trade tick message: one row of the trades data frame.  `conditions`
is the space-separated condition-code column, already tokenized. -/
structure Trade where
  sequence_number : ℕ
  sip_timestamp : ℕ
  price : ℚ
  size : ℕ
  conditions : List String
  deriving Repr, DecidableEq

/-- One row of the per-second time series produced by `get_seconds_df`
(and consumed by the feature modules).  `none` models a null cell. -/
structure SecondsRow where
  timestamp : ℕ
  bid_price : Option ℚ
  bid_size : Option ℕ
  ask_price : Option ℚ
  ask_size : Option ℕ
  last_trade_price : Option ℚ
  vwap : Option ℚ
  volume_price_dict : Option (List (ℚ × ℕ))
  volume_total : ℕ
  volume_aggressive_buy : ℕ
  volume_aggressive_sell : ℕ
  message_count_quote : ℕ
  message_count_trade : ℕ
  deriving Repr, DecidableEq

/-- Nanoseconds per second, the divisor in `sip_timestamp / 10.0**9`. -/
def nanos : ℕ := 10 ^ 9

/-- `math.ceil(ts / 10.0**9)` for an integer nanosecond timestamp. -/
def ceilSec (ts : ℕ) : ℕ := (ts + (nanos - 1)) / nanos

/-- `np.finfo(np.float64).eps`, the machine epsilon used by the
aggressive buy/sell classification. -/
def eps : ℚ := 1 / 2 ^ 52

/-- `start_time` of `init_seconds_df`: the ceiling of the first quote's
timestamp in seconds (`quotes_df.at[0, 'sip_timestamp']`). -/
def startSecond (quotes : List Quote) : ℕ :=
  ceilSec ((quotes.head?.map (·.sip_timestamp)).getD 0)

/-- `end_time` of `init_seconds_df`: the ceiling of the last quote's
timestamp in seconds (`quotes_df.at[len(quotes_df) - 1, 'sip_timestamp']`). -/
def endSecond (quotes : List Quote) : ℕ :=
  ceilSec ((quotes.getLast?.map (·.sip_timestamp)).getD 0)

/-- The timestamp column built by `init_seconds_df` via
`np.linspace(start_time, end_time, end_time - start_time + 1)`:
the integer seconds from `startSecond` to `endSecond` inclusive. -/
def initSecondsTimestamps (quotes : List Quote) : List ℕ :=
  (List.range (endSecond quotes + 1 - startSecond quotes)).map
    (fun k => startSecond quotes + k)

/-- The mutable cursor-and-forward-fill state of `get_seconds_df`'s outer
loop: `quotes_row`, `trades_row` and the `last_value` trade entries.  The
`last_value` bid/ask entries are not stored because the code overwrites
them each iteration from `quotes_df.at[quotes_row - 1, ...]`, so they are
a function of `quotes_row`. -/
structure LoopState where
  quotes_row : ℕ
  trades_row : ℕ
  trade_price : Option ℚ
  trade_size : Option ℕ
  deriving Repr, DecidableEq

/-- The read `quotes_df.at[quotes_row - 1, ...]` performed after the quote
loop.  It is unguarded in the source; with `quotes_row = 0` pandas would
raise (label `-1` does not exist), which is modelled as `none`. -/
def readPrevQuote (quotes : List Quote) (quotes_row : ℕ) : Option Quote :=
  if quotes_row = 0 then none else quotes[quotes_row - 1]?

/-- The per-trade accumulator of the inner trade loop of `get_seconds_df`:
the `total` dict entries touched by trades, the `volume_price_dict`, and
the `last_value` trade entries. -/
structure TradeAcc where
  volume : ℕ
  volume_aggressive_buy : ℕ
  volume_aggressive_sell : ℕ
  price : ℚ
  message_count_trade : ℕ
  volume_price_dict : List (ℚ × ℕ)
  trade_price : Option ℚ
  trade_size : Option ℕ
  deriving Repr, DecidableEq

/-- Insertion-ordered update of `volume_price_dict[price_key] += size`
(Python dicts preserve insertion order). -/
def vpdAdd (d : List (ℚ × ℕ)) (p : ℚ) (sz : ℕ) : List (ℚ × ℕ) :=
  if d.any (fun e => e.1 = p) then
    d.map (fun e => if e.1 = p then (e.1, e.2 + sz) else e)
  else
    d ++ [(p, sz)]

/-- One iteration of the trade loop body (lines 119–147 of the source):
`bid` and `ask` are the `last_value` bid/ask prices fixed by the quote
loop that ran just before. -/
def tradeStep (bid ask : Option ℚ) (acc : TradeAcc) (td : Trade) : TradeAcc :=
  { volume := acc.volume + td.size
    volume_aggressive_buy := acc.volume_aggressive_buy +
      (ask.elim 0 (fun a => if a - eps ≤ td.price then td.size else 0))
    volume_aggressive_sell := acc.volume_aggressive_sell +
      (bid.elim 0 (fun b => if td.price ≤ b + eps then td.size else 0))
    price := acc.price + td.size * td.price
    message_count_trade := acc.message_count_trade + 1
    volume_price_dict := vpdAdd acc.volume_price_dict td.price td.size
    trade_price := some td.price
    trade_size := some td.size }

/-- One iteration of the outer loop of `get_seconds_df` for the row with
timestamp `t`: advance the quote cursor, refresh bid/ask forward-fill
state, consume this second's trades, and emit the populated row. -/
def processSecond (quotes : List Quote) (trades : List Trade)
    (s : LoopState) (t : ℕ) : LoopState × SecondsRow :=
  let qAdv := ((quotes.drop s.quotes_row).takeWhile
    (fun q => q.sip_timestamp ≤ t * nanos)).length
  let qr := s.quotes_row + qAdv
  let prev := readPrevQuote quotes qr
  let bid_price := prev.map (·.bid_price)
  let bid_size := prev.map (fun q => q.bid_size * 100)
  let ask_price := prev.map (·.ask_price)
  let ask_size := prev.map (fun q => q.ask_size * 100)
  let consumed := (trades.drop s.trades_row).takeWhile
    (fun td => td.sip_timestamp ≤ t * nanos)
  let acc := consumed.foldl (tradeStep bid_price ask_price)
    { volume := 0, volume_aggressive_buy := 0, volume_aggressive_sell := 0,
      price := 0, message_count_trade := 0, volume_price_dict := [],
      trade_price := s.trade_price, trade_size := s.trade_size }
  ({ quotes_row := qr
     trades_row := s.trades_row + consumed.length
     trade_price := acc.trade_price
     trade_size := acc.trade_size },
   { timestamp := t
     bid_price := bid_price
     bid_size := bid_size
     ask_price := ask_price
     ask_size := ask_size
     last_trade_price := acc.trade_price
     vwap := if 0 < acc.volume then some (acc.price / acc.volume) else none
     volume_price_dict :=
       if acc.volume_price_dict = [] then none else some acc.volume_price_dict
     volume_total := acc.volume
     volume_aggressive_buy := acc.volume_aggressive_buy
     volume_aggressive_sell := acc.volume_aggressive_sell
     message_count_quote := qAdv
     message_count_trade := acc.message_count_trade })

/-- The outer loop of `get_seconds_df`, folded over the list of row
timestamps. -/
def runSeconds (quotes : List Quote) (trades : List Trade)
    (s : LoopState) : List ℕ → List SecondsRow
  | [] => []
  | t :: rest =>
    (processSecond quotes trades s t).2 ::
      runSeconds quotes trades (processSecond quotes trades s t).1 rest

/-- `get_seconds_df(quotes_df, trades_df)`: the per-second resampled
series. -/
def get_seconds_df (quotes : List Quote) (trades : List Trade) :
    List SecondsRow :=
  runSeconds quotes trades
    { quotes_row := 0, trades_row := 0, trade_price := none, trade_size := none }
    (initSecondsTimestamps quotes)

/-- Quote streams sorted ascending by `sip_timestamp` (the Tick Loader's
contract). -/
def QuotesSorted (quotes : List Quote) : Prop :=
  List.Pairwise (fun a b => a.sip_timestamp ≤ b.sip_timestamp) quotes

/-- Trade streams sorted ascending by `sip_timestamp`. -/
def TradesSorted (trades : List Trade) : Prop :=
  List.Pairwise (fun a b => a.sip_timestamp ≤ b.sip_timestamp) trades

/-- The timestamp column of the output of `get_seconds_df`. -/
def rowTimestamps (quotes : List Quote) (trades : List Trade) : List ℕ :=
  (get_seconds_df quotes trades).map (·.timestamp)

lemma ceilSec_mono {a b : ℕ} (h : a ≤ b) : ceilSec a ≤ ceilSec b :=
  Nat.div_le_div_right (Nat.add_le_add_right h _)

lemma processSecond_timestamp (quotes : List Quote) (trades : List Trade)
    (s : LoopState) (t : ℕ) :
    (processSecond quotes trades s t).2.timestamp = t := rfl

lemma runSeconds_map_timestamp (quotes : List Quote) (trades : List Trade) :
    ∀ (ts : List ℕ) (s : LoopState),
      (runSeconds quotes trades s ts).map (·.timestamp) = ts := by
  intro ts
  induction ts with
  | nil => intro s; rfl
  | cons t rest ih =>
    intro s
    simp only [runSeconds, List.map_cons, processSecond_timestamp, ih]

lemma runSeconds_length (quotes : List Quote) (trades : List Trade)
    (ts : List ℕ) (s : LoopState) :
    (runSeconds quotes trades s ts).length = ts.length := by
  have h := runSeconds_map_timestamp quotes trades ts s
  calc (runSeconds quotes trades s ts).length
      = ((runSeconds quotes trades s ts).map (·.timestamp)).length :=
        (List.length_map _ _).symm
    _ = ts.length := by rw [h]

lemma initSecondsTimestamps_length (quotes : List Quote) :
    (initSecondsTimestamps quotes).length
      = endSecond quotes + 1 - startSecond quotes := by
  simp [initSecondsTimestamps]

lemma initSecondsTimestamps_getElem (quotes : List Quote) (i : ℕ)
    (h : i < endSecond quotes + 1 - startSecond quotes) :
    (initSecondsTimestamps quotes)[i]? = some (startSecond quotes + i) := by
  simp [initSecondsTimestamps, List.getElem?_range h]

lemma startSecond_le_endSecond (quotes : List Quote) (hne : quotes ≠ [])
    (hs : QuotesSorted quotes) : startSecond quotes ≤ endSecond quotes := by
  cases quotes with
  | nil => exact absurd rfl hne
  | cons q rest =>
    have hlast : (q :: rest).getLast? = some ((q :: rest).getLast (by simp)) :=
      List.getLast?_eq_getLast _ _
    have hmem : (q :: rest).getLast (by simp) ∈ q :: rest := List.getLast_mem _
    have hle : q.sip_timestamp ≤ ((q :: rest).getLast (by simp)).sip_timestamp := by
      rcases List.mem_cons.mp hmem with h | h
      · rw [h]
      · exact ((List.pairwise_cons.mp hs).1 _ h)
    unfold startSecond endSecond
    rw [hlast]
    simpa using ceilSec_mono hle

lemma rowTimestamps_eq (quotes : List Quote) (trades : List Trade) :
    rowTimestamps quotes trades = initSecondsTimestamps quotes :=
  runSeconds_map_timestamp quotes trades _ _

/-- C1: for a non-empty, ascending quotes stream the resampled series has
`end − start + 1` rows, where `start`/`end` are the ceilings of the first
and last quote timestamps in seconds; the first and last row timestamps
equal `start` and `end`, and consecutive row timestamps differ by exactly
one second. -/
theorem c1_seconds_span (quotes : List Quote) (trades : List Trade)
    (hne : quotes ≠ []) (hs : QuotesSorted quotes) :
    (rowTimestamps quotes trades).length
        = endSecond quotes - startSecond quotes + 1
    ∧ (rowTimestamps quotes trades).head? = some (startSecond quotes)
    ∧ (rowTimestamps quotes trades).getLast? = some (endSecond quotes)
    ∧ ∀ i a b, (rowTimestamps quotes trades)[i]? = some a →
        (rowTimestamps quotes trades)[i + 1]? = some b → b = a + 1 := by
  have hse := startSecond_le_endSecond quotes hne hs
  have hn : endSecond quotes + 1 - startSecond quotes
      = endSecond quotes - startSecond quotes + 1 := by omega
  have hlen : (rowTimestamps quotes trades).length
      = endSecond quotes + 1 - startSecond quotes := by
    rw [rowTimestamps_eq]; exact initSecondsTimestamps_length quotes
  refine ⟨by rw [hlen, hn], ?_, ?_, ?_⟩
  · rw [List.head?_eq_getElem?, rowTimestamps_eq,
      initSecondsTimestamps_getElem quotes 0 (by omega), Nat.add_zero]
  · rw [List.getLast?_eq_getElem?, hlen, rowTimestamps_eq,
      initSecondsTimestamps_getElem quotes _ (by omega)]
    congr 1
    omega
  · intro i a b ha hb
    have hia : i < endSecond quotes + 1 - startSecond quotes := by
      by_contra hcon
      rw [rowTimestamps_eq,
        List.getElem?_eq_none (by rw [initSecondsTimestamps_length]; omega)]
        at ha
      exact Option.noConfusion ha
    have hib : i + 1 < endSecond quotes + 1 - startSecond quotes := by
      by_contra hcon
      rw [rowTimestamps_eq,
        List.getElem?_eq_none (by rw [initSecondsTimestamps_length]; omega)]
        at hb
      exact Option.noConfusion hb
    rw [rowTimestamps_eq, initSecondsTimestamps_getElem quotes i hia] at ha
    rw [rowTimestamps_eq, initSecondsTimestamps_getElem quotes (i + 1) hib] at hb
    have ha' : a = startSecond quotes + i := (Option.some_injective _ ha).symm
    have hb' : b = startSecond quotes + (i + 1) := (Option.some_injective _ hb).symm
    omega

/-- Witness for C1 on a concrete two-quote stream spanning three seconds. -/
theorem c1_seconds_span_witness :
    (rowTimestamps
        [⟨1 * nanos, 10, 1, 11, 1⟩, ⟨3 * nanos, 10, 1, 11, 1⟩]
        []).length = 3 := by
  have h := c1_seconds_span
    [⟨1 * nanos, 10, 1, 11, 1⟩, ⟨3 * nanos, 10, 1, 11, 1⟩] []
    (by decide)
    (by unfold QuotesSorted; decide)
  rw [h.1]
  decide

lemma le_ceilSec_mul (ts : ℕ) : ts ≤ ceilSec ts * nanos := by
  have h := Nat.div_add_mod (ts + (nanos - 1)) nanos
  have h2 : (ts + (nanos - 1)) % nanos < nanos :=
    Nat.mod_lt _ (by norm_num [nanos])
  unfold ceilSec
  simp only [nanos] at *
  norm_num at *
  omega

/-- The new quote cursor after one outer-loop iteration. -/
lemma processSecond_quotes_row (quotes : List Quote) (trades : List Trade)
    (s : LoopState) (t : ℕ) :
    (processSecond quotes trades s t).1.quotes_row
      = s.quotes_row + ((quotes.drop s.quotes_row).takeWhile
          (fun q => q.sip_timestamp ≤ t * nanos)).length := rfl

lemma processSecond_quotes_row_le (quotes : List Quote) (trades : List Trade)
    (s : LoopState) (t : ℕ) (h : s.quotes_row ≤ quotes.length) :
    (processSecond quotes trades s t).1.quotes_row ≤ quotes.length := by
  rw [processSecond_quotes_row]
  have h1 : ((quotes.drop s.quotes_row).takeWhile
      (fun q => q.sip_timestamp ≤ t * nanos)).length
        ≤ (quotes.drop s.quotes_row).length :=
    (List.takeWhile_sublist _).length_le
  rw [List.length_drop] at h1
  omega

lemma processSecond_quotes_row_ge (quotes : List Quote) (trades : List Trade)
    (s : LoopState) (t : ℕ) :
    s.quotes_row ≤ (processSecond quotes trades s t).1.quotes_row := by
  rw [processSecond_quotes_row]; omega

/-- The emitted row's bid/ask cells are read from the quote just before
the (new) cursor. -/
lemma processSecond_row_quote_fields (quotes : List Quote) (trades : List Trade)
    (s : LoopState) (t : ℕ) :
    (processSecond quotes trades s t).2.bid_price
        = (readPrevQuote quotes
            (processSecond quotes trades s t).1.quotes_row).map (·.bid_price)
    ∧ (processSecond quotes trades s t).2.bid_size
        = (readPrevQuote quotes
            (processSecond quotes trades s t).1.quotes_row).map
              (fun q => q.bid_size * 100)
    ∧ (processSecond quotes trades s t).2.ask_price
        = (readPrevQuote quotes
            (processSecond quotes trades s t).1.quotes_row).map (·.ask_price)
    ∧ (processSecond quotes trades s t).2.ask_size
        = (readPrevQuote quotes
            (processSecond quotes trades s t).1.quotes_row).map
              (fun q => q.ask_size * 100) :=
  ⟨rfl, rfl, rfl, rfl⟩

lemma readPrevQuote_isSome (quotes : List Quote) (qr : ℕ)
    (h1 : 1 ≤ qr) (h2 : qr ≤ quotes.length) :
    (readPrevQuote quotes qr).isSome := by
  unfold readPrevQuote
  rw [if_neg (by omega)]
  rw [Option.isSome_iff_exists]
  have hlt : qr - 1 < quotes.length := by omega
  exact ⟨quotes[qr - 1], List.getElem?_eq_some_iff.mpr ⟨hlt, rfl⟩⟩

lemma runSeconds_quote_fields_isSome (quotes : List Quote) (trades : List Trade) :
    ∀ (ts : List ℕ) (s : LoopState), 1 ≤ s.quotes_row →
      s.quotes_row ≤ quotes.length →
      ∀ r ∈ runSeconds quotes trades s ts,
        r.bid_price.isSome ∧ r.bid_size.isSome
          ∧ r.ask_price.isSome ∧ r.ask_size.isSome := by
  intro ts
  induction ts with
  | nil => intro s _ _ r hr; simp [runSeconds] at hr
  | cons t rest ih =>
    intro s h1 h2 r hr
    have hge := processSecond_quotes_row_ge quotes trades s t
    have hle := processSecond_quotes_row_le quotes trades s t h2
    rcases List.mem_cons.mp hr with h | h
    · subst h
      have hsome := readPrevQuote_isSome quotes
        (processSecond quotes trades s t).1.quotes_row (by omega) hle
      obtain ⟨f1, f2, f3, f4⟩ :=
        processSecond_row_quote_fields quotes trades s t
      rw [f1, f2, f3, f4]
      refine ⟨?_, ?_, ?_, ?_⟩ <;> simp [Option.isSome_map', hsome]
    · exact ih (processSecond quotes trades s t).1 (by omega) hle r h

/-- C9: on a non-empty ascending quotes stream the first row's quote loop
consumes at least one quote, so the unguarded `quotes_row - 1` reads are
always in bounds and every output row carries non-null bid/ask state; the
"null before first quote" case never occurs. -/
theorem c9_first_row_quote_advance (quotes : List Quote) (trades : List Trade)
    (hne : quotes ≠ []) (hs : QuotesSorted quotes) :
    1 ≤ (processSecond quotes trades
          { quotes_row := 0, trades_row := 0,
            trade_price := none, trade_size := none }
          (startSecond quotes)).1.quotes_row
    ∧ ∀ r ∈ get_seconds_df quotes trades,
        r.bid_price.isSome ∧ r.bid_size.isSome
          ∧ r.ask_price.isSome ∧ r.ask_size.isSome := by
  cases hq : quotes with
  | nil => exact absurd hq hne
  | cons q0 qrest =>
    subst hq
    have hfirst : ∀ t, startSecond (q0 :: qrest) ≤ t →
        1 ≤ (processSecond (q0 :: qrest) trades
          { quotes_row := 0, trades_row := 0,
            trade_price := none, trade_size := none } t).1.quotes_row := by
      intro t ht
      rw [processSecond_quotes_row]
      have hcond : q0.sip_timestamp ≤ t * nanos := by
        calc q0.sip_timestamp ≤ ceilSec q0.sip_timestamp * nanos :=
              le_ceilSec_mul _
          _ ≤ t * nanos := Nat.mul_le_mul_right _ (by
              simpa [startSecond, ceilSec] using ht)
      simp only [List.drop_zero, List.takeWhile_cons, decide_eq_true_eq,
        if_pos hcond]
      simp
    refine ⟨hfirst _ le_rfl, ?_⟩
    intro r hr
    unfold get_seconds_df at hr
    have hlen0 : (initSecondsTimestamps (q0 :: qrest)).length
        = endSecond (q0 :: qrest) + 1 - startSecond (q0 :: qrest) :=
      initSecondsTimestamps_length _
    have hse := startSecond_le_endSecond (q0 :: qrest) (by simp) hs
    cases hts : initSecondsTimestamps (q0 :: qrest) with
    | nil =>
      rw [hts] at hr
      simp [runSeconds] at hr
    | cons t0 tsrest =>
      have ht0 : t0 = startSecond (q0 :: qrest) := by
        have := initSecondsTimestamps_getElem (q0 :: qrest) 0 (by omega)
        rw [hts] at this
        simpa using this
      rw [hts] at hr
      simp only [runSeconds, List.mem_cons] at hr
      rcases hr with h | h
      · subst h
        have h1 : 1 ≤ (processSecond (q0 :: qrest) trades
            { quotes_row := 0, trades_row := 0,
              trade_price := none, trade_size := none } t0).1.quotes_row :=
          hfirst t0 (by omega)
        have hle : (processSecond (q0 :: qrest) trades
            { quotes_row := 0, trades_row := 0,
              trade_price := none, trade_size := none } t0).1.quotes_row
              ≤ (q0 :: qrest).length :=
          processSecond_quotes_row_le _ _ _ _ (by simp)
        have hsome := readPrevQuote_isSome (q0 :: qrest) _ h1 hle
        obtain ⟨f1, f2, f3, f4⟩ := processSecond_row_quote_fields
          (q0 :: qrest) trades
          { quotes_row := 0, trades_row := 0,
            trade_price := none, trade_size := none } t0
        rw [f1, f2, f3, f4]
        refine ⟨?_, ?_, ?_, ?_⟩ <;> simp [Option.isSome_map', hsome]
      · exact runSeconds_quote_fields_isSome (q0 :: qrest) trades tsrest _
          (hfirst t0 (by omega))
          (processSecond_quotes_row_le _ _ _ _ (by simp)) r h

/-- Witness for C9 on a concrete one-quote stream: its single output row
has non-null bid/ask state. -/
theorem c9_first_row_quote_advance_witness :
    (⟨2, some 5, some 300, some 6, some 400, none, none, none,
        0, 0, 0, 1, 0⟩ : SecondsRow).bid_price.isSome
    ∧ (⟨2, some 5, some 300, some 6, some 400, none, none, none,
        0, 0, 0, 1, 0⟩ : SecondsRow).bid_size.isSome
    ∧ (⟨2, some 5, some 300, some 6, some 400, none, none, none,
        0, 0, 0, 1, 0⟩ : SecondsRow).ask_price.isSome
    ∧ (⟨2, some 5, some 300, some 6, some 400, none, none, none,
        0, 0, 0, 1, 0⟩ : SecondsRow).ask_size.isSome :=
  (c9_first_row_quote_advance [⟨2 * nanos, 5, 3, 6, 4⟩] []
    (by decide) (by unfold QuotesSorted; decide)).2
    ⟨2, some 5, some 300, some 6, some 400, none, none, none, 0, 0, 0, 1, 0⟩
    (by decide)

lemma foldl_tradeStep_message_count (b a : Option ℚ) :
    ∀ (l : List Trade) (acc : TradeAcc),
      (l.foldl (tradeStep b a) acc).message_count_trade
        = acc.message_count_trade + l.length := by
  intro l
  induction l with
  | nil => intro acc; simp
  | cons td rest ih =>
    intro acc
    rw [List.foldl_cons, ih]
    simp [tradeStep]
    omega

lemma processSecond_row_mcq (quotes : List Quote) (trades : List Trade)
    (s : LoopState) (t : ℕ) :
    (processSecond quotes trades s t).2.message_count_quote
      = ((quotes.drop s.quotes_row).takeWhile
          (fun q => q.sip_timestamp ≤ t * nanos)).length := rfl

lemma processSecond_row_mct (quotes : List Quote) (trades : List Trade)
    (s : LoopState) (t : ℕ) :
    (processSecond quotes trades s t).2.message_count_trade
      = ((trades.drop s.trades_row).takeWhile
          (fun td => td.sip_timestamp ≤ t * nanos)).length := by
  show (((trades.drop s.trades_row).takeWhile
      (fun td => td.sip_timestamp ≤ t * nanos)).foldl (tradeStep _ _)
        _).message_count_trade = _
  rw [foldl_tradeStep_message_count]
  simp

lemma processSecond_row_last_trade (quotes : List Quote) (trades : List Trade)
    (s : LoopState) (t : ℕ) :
    (processSecond quotes trades s t).2.last_trade_price
      = (processSecond quotes trades s t).1.trade_price := rfl

/-- An outer-loop iteration that consumes no quote and no trade messages
leaves the cursors and forward-fill state untouched and emits a row of
zero aggregates. -/
lemma processSecond_no_messages (quotes : List Quote) (trades : List Trade)
    (s : LoopState) (t : ℕ)
    (hq : (processSecond quotes trades s t).2.message_count_quote = 0)
    (ht : (processSecond quotes trades s t).2.message_count_trade = 0) :
    (processSecond quotes trades s t).1.quotes_row = s.quotes_row
    ∧ (processSecond quotes trades s t).1.trade_price = s.trade_price
    ∧ (processSecond quotes trades s t).2.volume_total = 0
    ∧ (processSecond quotes trades s t).2.volume_aggressive_buy = 0
    ∧ (processSecond quotes trades s t).2.volume_aggressive_sell = 0
    ∧ (processSecond quotes trades s t).2.vwap = none
    ∧ (processSecond quotes trades s t).2.volume_price_dict = none := by
  rw [processSecond_row_mcq] at hq
  rw [processSecond_row_mct] at ht
  have hcons : (trades.drop s.trades_row).takeWhile
      (fun td => td.sip_timestamp ≤ t * nanos) = [] :=
    List.length_eq_zero.mp ht
  refine ⟨?_, ?_, ?_, ?_, ?_, ?_, ?_⟩ <;>
    simp [processSecond, hq, hcons]

lemma runSeconds_no_message_rows (quotes : List Quote) (trades : List Trade) :
    ∀ (ts : List ℕ) (s : LoopState) (i : ℕ) (r r' : SecondsRow),
      (runSeconds quotes trades s ts)[i]? = some r →
      (runSeconds quotes trades s ts)[i + 1]? = some r' →
      r'.message_count_quote = 0 → r'.message_count_trade = 0 →
      r'.bid_price = r.bid_price ∧ r'.bid_size = r.bid_size
      ∧ r'.ask_price = r.ask_price ∧ r'.ask_size = r.ask_size
      ∧ r'.last_trade_price = r.last_trade_price
      ∧ r'.volume_total = 0 ∧ r'.volume_aggressive_buy = 0
      ∧ r'.volume_aggressive_sell = 0
      ∧ r'.vwap = none ∧ r'.volume_price_dict = none := by
  intro ts
  induction ts with
  | nil => intro s i r r' hr; simp [runSeconds] at hr
  | cons t rest ih =>
    intro s i r r' hr hr' hq ht
    rw [show runSeconds quotes trades s (t :: rest)
        = (processSecond quotes trades s t).2 ::
            runSeconds quotes trades (processSecond quotes trades s t).1 rest
      from rfl] at hr hr'
    cases i with
    | succ j =>
      rw [List.getElem?_cons_succ] at hr hr'
      exact ih _ j r r' hr hr' hq ht
    | zero =>
      rw [List.getElem?_cons_zero] at hr
      rw [List.getElem?_cons_succ] at hr'
      have hre : r = (processSecond quotes trades s t).2 :=
        (Option.some_injective _ hr).symm
      cases rest with
      | nil => simp [runSeconds] at hr'
      | cons t2 rest2 =>
        set s1 := (processSecond quotes trades s t).1 with hs1
        rw [show runSeconds quotes trades s1 (t2 :: rest2)
            = (processSecond quotes trades s1 t2).2 ::
                runSeconds quotes trades (processSecond quotes trades s1 t2).1
                  rest2
          from rfl, List.getElem?_cons_zero] at hr'
        have hre' : r' = (processSecond quotes trades s1 t2).2 :=
          (Option.some_injective _ hr').symm
        rw [hre'] at hq ht
        obtain ⟨e1, e2, e3, e4, e5, e6, e7⟩ :=
          processSecond_no_messages quotes trades s1 t2 hq ht
        obtain ⟨f1, f2, f3, f4⟩ :=
          processSecond_row_quote_fields quotes trades s1 t2
        obtain ⟨g1, g2, g3, g4⟩ :=
          processSecond_row_quote_fields quotes trades s t
        subst hre hre'
        refine ⟨?_, ?_, ?_, ?_, ?_, e3, e4, e5, e6, e7⟩
        · rw [f1, g1, e1]
        · rw [f2, g2, e1]
        · rw [f3, g3, e1]
        · rw [f4, g4, e1]
        · rw [processSecond_row_last_trade, e2,
            processSecond_row_last_trade]

/-- C2: an output row whose second saw no quote and no trade messages
forward-fills the previous row's bid/ask and last-trade state, reports
exactly zero volume, aggressive-volume and message counts, and has null
vwap and volume-price dict. -/
theorem c2_empty_second (quotes : List Quote) (trades : List Trade)
    (i : ℕ) (r r' : SecondsRow)
    (hr : (get_seconds_df quotes trades)[i]? = some r)
    (hr' : (get_seconds_df quotes trades)[i + 1]? = some r')
    (hq : r'.message_count_quote = 0) (ht : r'.message_count_trade = 0) :
    r'.bid_price = r.bid_price ∧ r'.bid_size = r.bid_size
    ∧ r'.ask_price = r.ask_price ∧ r'.ask_size = r.ask_size
    ∧ r'.last_trade_price = r.last_trade_price
    ∧ r'.volume_total = 0 ∧ r'.volume_aggressive_buy = 0
    ∧ r'.volume_aggressive_sell = 0
    ∧ r'.vwap = none ∧ r'.volume_price_dict = none :=
  runSeconds_no_message_rows quotes trades
    (initSecondsTimestamps quotes) _ i r r' hr hr' hq ht

/-- Witness for C2 on a two-quote stream with an empty middle second. -/
theorem c2_empty_second_witness :
    (⟨2, some 10, some 100, some 11, some 200, none, none, none,
        0, 0, 0, 0, 0⟩ : SecondsRow).bid_price
      = (⟨1, some 10, some 100, some 11, some 200, none, none, none,
        0, 0, 0, 1, 0⟩ : SecondsRow).bid_price
    ∧ (⟨2, some 10, some 100, some 11, some 200, none, none, none,
        0, 0, 0, 0, 0⟩ : SecondsRow).bid_size
      = (⟨1, some 10, some 100, some 11, some 200, none, none, none,
        0, 0, 0, 1, 0⟩ : SecondsRow).bid_size
    ∧ (⟨2, some 10, some 100, some 11, some 200, none, none, none,
        0, 0, 0, 0, 0⟩ : SecondsRow).ask_price
      = (⟨1, some 10, some 100, some 11, some 200, none, none, none,
        0, 0, 0, 1, 0⟩ : SecondsRow).ask_price
    ∧ (⟨2, some 10, some 100, some 11, some 200, none, none, none,
        0, 0, 0, 0, 0⟩ : SecondsRow).ask_size
      = (⟨1, some 10, some 100, some 11, some 200, none, none, none,
        0, 0, 0, 1, 0⟩ : SecondsRow).ask_size
    ∧ (⟨2, some 10, some 100, some 11, some 200, none, none, none,
        0, 0, 0, 0, 0⟩ : SecondsRow).last_trade_price
      = (⟨1, some 10, some 100, some 11, some 200, none, none, none,
        0, 0, 0, 1, 0⟩ : SecondsRow).last_trade_price
    ∧ (⟨2, some 10, some 100, some 11, some 200, none, none, none,
        0, 0, 0, 0, 0⟩ : SecondsRow).volume_total = 0
    ∧ (⟨2, some 10, some 100, some 11, some 200, none, none, none,
        0, 0, 0, 0, 0⟩ : SecondsRow).volume_aggressive_buy = 0
    ∧ (⟨2, some 10, some 100, some 11, some 200, none, none, none,
        0, 0, 0, 0, 0⟩ : SecondsRow).volume_aggressive_sell = 0
    ∧ (⟨2, some 10, some 100, some 11, some 200, none, none, none,
        0, 0, 0, 0, 0⟩ : SecondsRow).vwap = none
    ∧ (⟨2, some 10, some 100, some 11, some 200, none, none, none,
        0, 0, 0, 0, 0⟩ : SecondsRow).volume_price_dict = none :=
  c2_empty_second
    [⟨1 * nanos, 10, 1, 11, 2⟩, ⟨3 * nanos, 10, 1, 11, 2⟩] [] 0
    ⟨1, some 10, some 100, some 11, some 200, none, none, none, 0, 0, 0, 1, 0⟩
    ⟨2, some 10, some 100, some 11, some 200, none, none, none, 0, 0, 0, 0, 0⟩
    (by decide) (by decide) (by decide) (by decide)


lemma eps_pos : 0 < eps := by norm_num [eps]

/-- C3: per consumed trade, if the ask is known and the trade price is at
least `ask - eps` the size is added to aggressive-buy volume (otherwise
not), and symmetrically for the bid and aggressive-sell volume; a trade
priced exactly at the quote is boundary-inclusive on both sides, so a
single trade can count toward both. -/
theorem c3_aggressive_classification (bid ask : Option ℚ) (acc : TradeAcc)
    (td : Trade) :
    (∀ a, ask = some a → a - eps ≤ td.price →
      (tradeStep bid ask acc td).volume_aggressive_buy
        = acc.volume_aggressive_buy + td.size)
    ∧ (∀ a, ask = some a → td.price < a - eps →
      (tradeStep bid ask acc td).volume_aggressive_buy
        = acc.volume_aggressive_buy)
    ∧ (ask = none → (tradeStep bid ask acc td).volume_aggressive_buy
        = acc.volume_aggressive_buy)
    ∧ (∀ b, bid = some b → td.price ≤ b + eps →
      (tradeStep bid ask acc td).volume_aggressive_sell
        = acc.volume_aggressive_sell + td.size)
    ∧ (∀ b, bid = some b → b + eps < td.price →
      (tradeStep bid ask acc td).volume_aggressive_sell
        = acc.volume_aggressive_sell)
    ∧ (bid = none → (tradeStep bid ask acc td).volume_aggressive_sell
        = acc.volume_aggressive_sell)
    ∧ (tradeStep (some td.price) (some td.price) acc td).volume_aggressive_buy
        = acc.volume_aggressive_buy + td.size
    ∧ (tradeStep (some td.price) (some td.price) acc td).volume_aggressive_sell
        = acc.volume_aggressive_sell + td.size := by
  have hb : td.price - eps ≤ td.price := by
    have := eps_pos
    linarith
  have hs : td.price ≤ td.price + eps := by
    have := eps_pos
    linarith
  have hvab : ∀ (b a : Option ℚ),
      (tradeStep b a acc td).volume_aggressive_buy
        = acc.volume_aggressive_buy
          + a.elim 0 (fun x => if x - eps ≤ td.price then td.size else 0) :=
    fun _ _ => rfl
  have hvas : ∀ (b a : Option ℚ),
      (tradeStep b a acc td).volume_aggressive_sell
        = acc.volume_aggressive_sell
          + b.elim 0 (fun x => if td.price ≤ x + eps then td.size else 0) :=
    fun _ _ => rfl
  refine ⟨?_, ?_, ?_, ?_, ?_, ?_, ?_, ?_⟩
  · intro a ha h; subst ha
    rw [hvab, Option.elim_some, if_pos h]
  · intro a ha h; subst ha
    rw [hvab, Option.elim_some, if_neg (not_le.mpr h), Nat.add_zero]
  · intro ha; subst ha
    rw [hvab, Option.elim_none, Nat.add_zero]
  · intro b hbq h; subst hbq
    rw [hvas, Option.elim_some, if_pos h]
  · intro b hbq h; subst hbq
    rw [hvas, Option.elim_some, if_neg (not_le.mpr h), Nat.add_zero]
  · intro hbq; subst hbq
    rw [hvas, Option.elim_none, Nat.add_zero]
  · rw [hvab, Option.elim_some, if_pos hb]
  · rw [hvas, Option.elim_some, if_pos hs]

/-- Witness for C3: a trade priced exactly at the quoted bid and ask
counts toward both aggressive sides. -/
theorem c3_aggressive_classification_witness :
    (tradeStep (some 5) (some 5) ⟨0, 0, 0, 0, 0, [], none, none⟩
        ⟨1, 0, 5, 7, []⟩).volume_aggressive_buy = 0 + 7
    ∧ (tradeStep (some 5) (some 5) ⟨0, 0, 0, 0, 0, [], none, none⟩
        ⟨1, 0, 5, 7, []⟩).volume_aggressive_sell = 0 + 7 :=
  ⟨(c3_aggressive_classification (some 5) (some 5)
      ⟨0, 0, 0, 0, 0, [], none, none⟩ ⟨1, 0, 5, 7, []⟩).1 5 rfl
      (by norm_num [eps]),
    (c3_aggressive_classification (some 5) (some 5)
      ⟨0, 0, 0, 0, 0, [], none, none⟩ ⟨1, 0, 5, 7, []⟩).2.2.2.1 5 rfl
      (by norm_num [eps])⟩

/-- Modelled from the spec: `discard_trade_conditions` is exercised by
`tests/test_polygon_time_series.py` but its definition is missing from
the source tree.  Per the spec (§4.1 Trade Filter), it returns the subset
of trades whose condition-code token list has no intersection with the
discard set, preserving original order; only the keys of the discard
mapping matter, so the discard set is given as a list of codes. -/
def discard_trade_conditions (trades : List Trade) (discard : List String) :
    List Trade :=
  trades.filter (fun td => td.conditions.all (fun c => !(discard.contains c)))

/-- C4: the trade filter keeps exactly the trades whose condition tokens
avoid the discard set, in original order with unchanged fields, and a
trade with no conditions is always kept. -/
theorem c4_trade_filter (trades : List Trade) (discard : List String) :
    (discard_trade_conditions trades discard).Sublist trades
    ∧ (∀ td ∈ trades,
        (td ∈ discard_trade_conditions trades discard ↔
          ∀ c ∈ td.conditions, c ∉ discard))
    ∧ (∀ td ∈ trades, td.conditions = [] →
        td ∈ discard_trade_conditions trades discard) := by
  have hmem : ∀ td ∈ trades,
      (td ∈ discard_trade_conditions trades discard ↔
        ∀ c ∈ td.conditions, c ∉ discard) := by
    intro td htd
    unfold discard_trade_conditions
    rw [List.mem_filter]
    simp [htd]
  refine ⟨List.filter_sublist _, hmem, ?_⟩
  intro td htd hnil
  exact (hmem td htd).mpr (by simp [hnil])

/-- Witness for C4 mirroring the unit test: with discard codes 37 and 53,
a trade carrying code 37 is dropped and one without it is kept. -/
theorem c4_trade_filter_witness :
    (⟨6028401, 0, 1, 1, ["12"]⟩ : Trade) ∈
      discard_trade_conditions
        [⟨6028401, 0, 1, 1, ["12"]⟩, ⟨6029301, 0, 1, 1, ["37", "12"]⟩]
        ["37", "53"]
    ∧ (⟨6029301, 0, 1, 1, ["37", "12"]⟩ : Trade) ∉
      discard_trade_conditions
        [⟨6028401, 0, 1, 1, ["12"]⟩, ⟨6029301, 0, 1, 1, ["37", "12"]⟩]
        ["37", "53"] := by
  have h := c4_trade_filter
    [⟨6028401, 0, 1, 1, ["12"]⟩, ⟨6029301, 0, 1, 1, ["37", "12"]⟩]
    ["37", "53"]
  constructor
  · exact (h.2.1 _ (by simp)).mpr (by decide)
  · intro hm
    have hall := (h.2.1 _ (by simp)).mp hm
    exact absurd (by decide : ("37" : String) ∈ ["37", "53"])
      (hall "37" (by decide))


/-- pandas `expanding().sum()` over an integer column: prefix sums, with
`acc` the sum of the rows already passed. -/
def expandingSum (acc : ℕ) : List ℕ → List ℕ
  | [] => []
  | v :: vs => (acc + v) :: expandingSum (acc + v) vs

/-- The `volume_total_day` column of `features_second.get_output_df`:
`time_series_df['volume_total'].expanding().sum()` (the source casts the
float result back to `Int64`; on integer inputs that cast is exact). -/
def volume_total_day_col (rows : List SecondsRow) : List ℕ :=
  expandingSum 0 (rows.map (·.volume_total))

lemma expandingSum_getElem : ∀ (xs : List ℕ) (acc i : ℕ),
    (expandingSum acc xs)[i]?
      = if i < xs.length then some (acc + (xs.take (i + 1)).sum) else none := by
  intro xs
  induction xs with
  | nil => intro acc i; simp [expandingSum]
  | cons v vs ih =>
    intro acc i
    cases i with
    | zero => simp [expandingSum]
    | succ j =>
      rw [expandingSum, List.getElem?_cons_succ, ih]
      by_cases h : j < vs.length
      · rw [if_pos h, if_pos (by simpa using Nat.succ_lt_succ h)]
        simp [Nat.add_assoc]
      · rw [if_neg h, if_neg (by simpa using fun hc => h (Nat.lt_of_succ_lt_succ hc))]

/-- C5: `volume_total_day` at row `i` is the sum of the input series'
`volume_total` over rows `0..i`, and the column is non-decreasing. -/
theorem c5_cumulative_volume (rows : List SecondsRow) (i : ℕ) :
    (volume_total_day_col rows)[i]?
      = (if i < rows.length
          then some (((rows.map (·.volume_total)).take (i + 1)).sum)
          else none)
    ∧ (∀ a b, (volume_total_day_col rows)[i]? = some a →
        (volume_total_day_col rows)[i + 1]? = some b → a ≤ b) := by
  have hchar : ∀ j, (volume_total_day_col rows)[j]?
      = if j < rows.length
          then some (((rows.map (·.volume_total)).take (j + 1)).sum)
          else none := by
    intro j
    rw [volume_total_day_col, expandingSum_getElem]
    simp
  refine ⟨hchar i, ?_⟩
  intro a b ha hb
  rw [hchar i] at ha
  rw [hchar (i + 1)] at hb
  have hib : i + 1 < rows.length := by
    by_contra hc
    rw [if_neg hc] at hb
    exact Option.noConfusion hb
  rw [if_pos (by omega)] at ha
  rw [if_pos hib] at hb
  have ha' : a = ((rows.map (·.volume_total)).take (i + 1)).sum :=
    (Option.some_injective _ ha).symm
  have hb' : b = ((rows.map (·.volume_total)).take (i + 1 + 1)).sum :=
    (Option.some_injective _ hb).symm
  have hstep := List.sum_take_succ (rows.map (·.volume_total)) (i + 1)
    (by simpa using hib)
  omega

/-- Witness for C5 on two rows with volumes 3 and 4. -/
theorem c5_cumulative_volume_witness :
    (volume_total_day_col
        [⟨1, none, none, none, none, none, none, none, 3, 0, 0, 0, 0⟩,
          ⟨2, none, none, none, none, none, none, none, 4, 0, 0, 0, 0⟩])[1]?
      = some 7
    ∧ 3 ≤ 7 := by
  refine ⟨by decide, ?_⟩
  exact (c5_cumulative_volume
    [⟨1, none, none, none, none, none, none, none, 3, 0, 0, 0, 0⟩,
      ⟨2, none, none, none, none, none, none, none, 4, 0, 0, 0, 0⟩] 0).2
    3 7 (by decide) (by decide)


/-- The trailing window of length `W` ending at row `i` used by pandas
`rolling(W)`: rows `i-W+1..i`, clipped at the start of the series. -/
def windowSlice {α : Type} (W i : ℕ) (xs : List α) : List α :=
  (xs.take (i + 1)).drop (i + 1 - W)

/-- The non-null observations of a window (pandas aggregations skip NaN). -/
def obs (win : List (Option ℚ)) : List ℚ := win.filterMap id

/-- Build a rolling column: apply `agg` to the trailing window at every
row index. -/
def rollCol (W : ℕ) (agg : List (Option ℚ) → Option ℚ)
    (xs : List (Option ℚ)) : List (Option ℚ) :=
  (List.range xs.length).map (fun i => agg (windowSlice W i xs))

/-- pandas `rolling(W, min_periods=1).sum()` on a window: null only when
the window holds no observation. -/
def aggSumMin1 (win : List (Option ℚ)) : Option ℚ :=
  if obs win = [] then none else some (obs win).sum

/-- Maximum of a list of rationals, `none` on the empty list. -/
def listMaxQ : List ℚ → Option ℚ
  | [] => none
  | x :: xs => some (xs.foldl max x)

/-- Minimum of a list of rationals, `none` on the empty list. -/
def listMinQ : List ℚ → Option ℚ
  | [] => none
  | x :: xs => some (xs.foldl min x)

/-- pandas `rolling(W, min_periods=1).max()` on a window. -/
def aggMaxMin1 (win : List (Option ℚ)) : Option ℚ := listMaxQ (obs win)

/-- pandas `rolling(W, min_periods=1).min()` on a window. -/
def aggMinMin1 (win : List (Option ℚ)) : Option ℚ := listMinQ (obs win)

/-- pandas `rolling(W, min_periods=1).median()` on a window: median of
the sorted observations, averaging the two middle ones for even counts. -/
def aggMedianMin1 (win : List (Option ℚ)) : Option ℚ :=
  let v := (obs win).insertionSort (· ≤ ·)
  if v = [] then none
  else if v.length % 2 = 1 then some (v.getD (v.length / 2) 0)
  else some ((v.getD (v.length / 2 - 1) 0 + v.getD (v.length / 2) 0) / 2)

/-- pandas `rolling(W).mean()` with the default `min_periods = W`: null
unless the window holds `W` observations. -/
def aggMeanFull (W : ℕ) (win : List (Option ℚ)) : Option ℚ :=
  if (obs win).length = W then some ((obs win).sum / (W : ℚ)) else none

/-- The nullability and window behaviour of pandas `rolling(W).std()`
(sample standard deviation, `ddof = 1`, default `min_periods = W`): null
unless the window holds `W` observations and `W ≥ 2`.  The value stored
here is the sample variance over the window; the source stores its square
root, which is null exactly when this is. -/
def aggVarFull (W : ℕ) (win : List (Option ℚ)) : Option ℚ :=
  if (obs win).length = W ∧ 2 ≤ W then
    some ((((obs win).map
      (fun x => (x - (obs win).sum / (W : ℚ)) ^ 2)).sum) / ((W : ℚ) - 1))
  else none

/-- `np.dot(x, np.arange(k, k + len x))`: weights `k, k+1, ...` assigned
oldest-to-newest. -/
def dotWeights : ℕ → List ℚ → ℚ
  | _, [] => 0
  | k, x :: xs => x * (k : ℚ) + dotWeights (k + 1) xs

/-- `np.arange(1, W + 1).sum()`, the weight normalizer. -/
def triangular (W : ℕ) : ℚ := ((List.range W).map (fun j => (j + 1 : ℚ))).sum

/-- The `rolling(W).apply(...)` weighted moving average of the source
(default `min_periods = W`): defined only when the window holds `W`
observations; then the raw window is dotted with weights `1..W`
oldest-to-newest and normalized by their sum. -/
def aggWeightedFull (W : ℕ) (win : List (Option ℚ)) : Option ℚ :=
  if (obs win).length = W then
    some (dotWeights 1 (obs win) / triangular W)
  else none

/-- The `last_trade_price` input column. -/
def lastTradeCol (rows : List SecondsRow) : List (Option ℚ) :=
  rows.map (·.last_trade_price)

/-- The `bid_size` input column as floats. -/
def bidSizeColQ (rows : List SecondsRow) : List (Option ℚ) :=
  rows.map (fun r => r.bid_size.map (fun n => (n : ℚ)))

/-- The `ask_size` input column as floats. -/
def askSizeColQ (rows : List SecondsRow) : List (Option ℚ) :=
  rows.map (fun r => r.ask_size.map (fun n => (n : ℚ)))

/-- The temporary `bid_ask_spread` column: `ask_price - bid_price`, null
when either side is null. -/
def spreadCol (rows : List SecondsRow) : List (Option ℚ) :=
  rows.map (fun r =>
    match r.ask_price, r.bid_price with
    | some a, some b => some (a - b)
    | _, _ => none)

/-- The temporary per-row `high_price`: the largest price key of
`volume_price_dict`, null when the dict is null (or empty, in which case
the sentinel in the source is never replaced). -/
def highOfRow (r : SecondsRow) : Option ℚ :=
  r.volume_price_dict.bind (fun d => listMaxQ (d.map (·.1)))

/-- The temporary per-row `low_price`: smallest price key of
`volume_price_dict`. -/
def lowOfRow (r : SecondsRow) : Option ℚ :=
  r.volume_price_dict.bind (fun d => listMinQ (d.map (·.1)))

/-- The `volume_total` column as floats (never null: dtype `Int64` with
values always written). -/
def volumeColQ (rows : List SecondsRow) : List (Option ℚ) :=
  rows.map (fun r => some ((r.volume_total : ℚ)))

/-- The `volume_aggressive_buy` column as floats. -/
def vabColQ (rows : List SecondsRow) : List (Option ℚ) :=
  rows.map (fun r => some ((r.volume_aggressive_buy : ℚ)))

/-- The `volume_aggressive_sell` column as floats. -/
def vasColQ (rows : List SecondsRow) : List (Option ℚ) :=
  rows.map (fun r => some ((r.volume_aggressive_sell : ℚ)))

/-- The `message_count_quote` column as floats. -/
def mcqColQ (rows : List SecondsRow) : List (Option ℚ) :=
  rows.map (fun r => some ((r.message_count_quote : ℚ)))

/-- The `message_count_trade` column as floats. -/
def mctColQ (rows : List SecondsRow) : List (Option ℚ) :=
  rows.map (fun r => some ((r.message_count_trade : ℚ)))

/-- The temporary `volume_price_product` column:
`volume_total * vwap`, null exactly where `vwap` is null. -/
def productCol (rows : List SecondsRow) : List (Option ℚ) :=
  rows.map (fun r => r.vwap.map (fun v => v * (r.volume_total : ℚ)))

/-- Float division with NaN/division-by-zero modelled as `none`. -/
def divOpt (a b : Option ℚ) : Option ℚ :=
  match a, b with
  | some x, some y => if y = 0 then none else some (x / y)
  | _, _ => none

/-- `volatility_W`: `last_trade_price.rolling(W).std()`. -/
def volatilityCol (W : ℕ) (rows : List SecondsRow) : List (Option ℚ) :=
  rollCol W (aggVarFull W) (lastTradeCol rows)

/-- `moving_average_W`: `last_trade_price.rolling(W).mean()`. -/
def movingAverageCol (W : ℕ) (rows : List SecondsRow) : List (Option ℚ) :=
  rollCol W (aggMeanFull W) (lastTradeCol rows)

/-- `moving_average_weighted_W`: the `rolling(W).apply` weighted mean. -/
def movingAverageWeightedCol (W : ℕ) (rows : List SecondsRow) :
    List (Option ℚ) :=
  rollCol W (aggWeightedFull W) (lastTradeCol rows)

/-- `bid_size_median_W` before the `Int64` cast. -/
def bidSizeMedianCol (W : ℕ) (rows : List SecondsRow) : List (Option ℚ) :=
  rollCol W aggMedianMin1 (bidSizeColQ rows)

/-- `ask_size_median_W` before the `Int64` cast. -/
def askSizeMedianCol (W : ℕ) (rows : List SecondsRow) : List (Option ℚ) :=
  rollCol W aggMedianMin1 (askSizeColQ rows)

/-- `bid_ask_spread_median_W`. -/
def spreadMedianCol (W : ℕ) (rows : List SecondsRow) : List (Option ℚ) :=
  rollCol W aggMedianMin1 (spreadCol rows)

/-- `high_price_W`: rolling max of the per-row high. -/
def highPriceWCol (W : ℕ) (rows : List SecondsRow) : List (Option ℚ) :=
  rollCol W aggMaxMin1 (rows.map highOfRow)

/-- `low_price_W`: rolling min of the per-row low. -/
def lowPriceWCol (W : ℕ) (rows : List SecondsRow) : List (Option ℚ) :=
  rollCol W aggMinMin1 (rows.map lowOfRow)

/-- `volume_total_W`: `volume_total.rolling(W, min_periods=1).sum()`
(before the exact `Int64` cast). -/
def volumeTotalWCol (W : ℕ) (rows : List SecondsRow) : List (Option ℚ) :=
  rollCol W aggSumMin1 (volumeColQ rows)

/-- `volume_aggressive_buy_W`. -/
def vabWCol (W : ℕ) (rows : List SecondsRow) : List (Option ℚ) :=
  rollCol W aggSumMin1 (vabColQ rows)

/-- `volume_aggressive_sell_W`. -/
def vasWCol (W : ℕ) (rows : List SecondsRow) : List (Option ℚ) :=
  rollCol W aggSumMin1 (vasColQ rows)

/-- `message_count_quote_W`. -/
def mcqWCol (W : ℕ) (rows : List SecondsRow) : List (Option ℚ) :=
  rollCol W aggSumMin1 (mcqColQ rows)

/-- `message_count_trade_W`. -/
def mctWCol (W : ℕ) (rows : List SecondsRow) : List (Option ℚ) :=
  rollCol W aggSumMin1 (mctColQ rows)

/-- `vwap_W`: the elementwise quotient of the rolling
`volume_price_product` sum by the rolling `volume_total` sum (both
`min_periods=1`). -/
def vwapWCol (W : ℕ) (rows : List SecondsRow) : List (Option ℚ) :=
  List.zipWith divOpt (rollCol W aggSumMin1 (productCol rows))
    (rollCol W aggSumMin1 (volumeColQ rows))


lemma rollCol_getElem (W : ℕ) (agg : List (Option ℚ) → Option ℚ)
    (xs : List (Option ℚ)) (i : ℕ) (h : i < xs.length) :
    (rollCol W agg xs)[i]? = some (agg (windowSlice W i xs)) := by
  rw [rollCol, List.getElem?_map, List.getElem?_range h, Option.map_some']

lemma windowSlice_length {α : Type} (W i : ℕ) (xs : List α)
    (h : i < xs.length) :
    (windowSlice W i xs).length = min (i + 1) W := by
  rw [windowSlice, List.length_drop, List.length_take]
  omega

lemma windowSlice_map {α β : Type} (g : α → β) (W i : ℕ) (xs : List α) :
    windowSlice W i (xs.map g) = (windowSlice W i xs).map g := by
  rw [windowSlice, windowSlice, ← List.map_take, ← List.map_drop]

lemma obs_map_some {α : Type} (f : α → ℚ) (l : List α) :
    obs (l.map (fun x => some (f x))) = l.map f := by
  rw [obs, show (fun x => some (f x)) = some ∘ f from rfl,
    List.filterMap_map]
  exact congrFun (List.filterMap_eq_map f) l

lemma obs_length_le (win : List (Option ℚ)) : (obs win).length ≤ win.length :=
  List.length_filterMap_le _ _

lemma aggSumMin1_all_some {α : Type} (f : α → ℚ) (l : List α) (hne : l ≠ []) :
    aggSumMin1 (l.map (fun x => some (f x))) = some ((l.map f).sum) := by
  rw [aggSumMin1, obs_map_some]
  rw [if_neg (by simpa using hne)]

lemma aggMedianMin1_eq_none_iff (win : List (Option ℚ)) :
    aggMedianMin1 win = none ↔ obs win = [] := by
  have hp := (List.perm_insertionSort (fun a b : ℚ => a ≤ b) (obs win)).length_eq
  constructor
  · intro h
    by_contra hne
    have hsne : (obs win).insertionSort (fun a b : ℚ => a ≤ b) ≠ [] := by
      intro hc
      rw [hc] at hp
      exact hne (List.length_eq_zero.mp hp.symm)
    rw [aggMedianMin1] at h
    simp only [if_neg hsne] at h
    by_cases hodd : ((obs win).insertionSort (fun a b : ℚ => a ≤ b)).length % 2 = 1
    · rw [if_pos hodd] at h; exact Option.noConfusion h
    · rw [if_neg hodd] at h; exact Option.noConfusion h
  · intro h
    have hs : (obs win).insertionSort (fun a b : ℚ => a ≤ b) = [] := by
      rw [h]; rfl
    rw [aggMedianMin1]
    simp only [if_pos hs]


lemma listMaxQ_eq_none_iff (l : List ℚ) : listMaxQ l = none ↔ l = [] := by
  cases l <;> simp [listMaxQ]

lemma listMinQ_eq_none_iff (l : List ℚ) : listMinQ l = none ↔ l = [] := by
  cases l <;> simp [listMinQ]

/-- C6: for every window length `W`, volatility, moving average and
weighted moving average of `last_trade_price` are null on the first
`W − 1` rows and are computed only over windows holding `W` observations
(the weighted mean dotting the window with weights `1..W`
oldest-to-newest, normalized by their sum `triangular W`), while the
rolling sums, medians, high/low and VWAP pieces use `min_periods = 1`:
they are computed at every row over the clipped partial window, null only
when that window holds no observation at all. -/
theorem c6_rolling_window_policy (W : ℕ) (rows : List SecondsRow) (i : ℕ)
    (hW : 1 ≤ W) (hi : i < rows.length) :
    (i + 1 < W →
      (volatilityCol W rows)[i]? = some none
      ∧ (movingAverageCol W rows)[i]? = some none
      ∧ (movingAverageWeightedCol W rows)[i]? = some none)
    ∧ ((obs (windowSlice W i (lastTradeCol rows))).length ≠ W →
      (volatilityCol W rows)[i]? = some none
      ∧ (movingAverageCol W rows)[i]? = some none
      ∧ (movingAverageWeightedCol W rows)[i]? = some none)
    ∧ ((obs (windowSlice W i (lastTradeCol rows))).length = W →
      (movingAverageCol W rows)[i]?
        = some (some ((obs (windowSlice W i (lastTradeCol rows))).sum / (W : ℚ)))
      ∧ (movingAverageWeightedCol W rows)[i]?
        = some (some (dotWeights 1 (obs (windowSlice W i (lastTradeCol rows)))
            / triangular W)))
    ∧ (volumeTotalWCol W rows)[i]?
        = some (some (((windowSlice W i rows).map
            (fun r => (r.volume_total : ℚ))).sum))
    ∧ (vabWCol W rows)[i]?
        = some (some (((windowSlice W i rows).map
            (fun r => (r.volume_aggressive_buy : ℚ))).sum))
    ∧ (vasWCol W rows)[i]?
        = some (some (((windowSlice W i rows).map
            (fun r => (r.volume_aggressive_sell : ℚ))).sum))
    ∧ (mcqWCol W rows)[i]?
        = some (some (((windowSlice W i rows).map
            (fun r => (r.message_count_quote : ℚ))).sum))
    ∧ (mctWCol W rows)[i]?
        = some (some (((windowSlice W i rows).map
            (fun r => (r.message_count_trade : ℚ))).sum))
    ∧ (bidSizeMedianCol W rows)[i]?
        = some (aggMedianMin1 (windowSlice W i (bidSizeColQ rows)))
    ∧ (aggMedianMin1 (windowSlice W i (bidSizeColQ rows)) = none
        ↔ obs (windowSlice W i (bidSizeColQ rows)) = [])
    ∧ (askSizeMedianCol W rows)[i]?
        = some (aggMedianMin1 (windowSlice W i (askSizeColQ rows)))
    ∧ (aggMedianMin1 (windowSlice W i (askSizeColQ rows)) = none
        ↔ obs (windowSlice W i (askSizeColQ rows)) = [])
    ∧ (spreadMedianCol W rows)[i]?
        = some (aggMedianMin1 (windowSlice W i (spreadCol rows)))
    ∧ (aggMedianMin1 (windowSlice W i (spreadCol rows)) = none
        ↔ obs (windowSlice W i (spreadCol rows)) = [])
    ∧ (highPriceWCol W rows)[i]?
        = some (aggMaxMin1 (windowSlice W i (rows.map highOfRow)))
    ∧ (aggMaxMin1 (windowSlice W i (rows.map highOfRow)) = none
        ↔ obs (windowSlice W i (rows.map highOfRow)) = [])
    ∧ (lowPriceWCol W rows)[i]?
        = some (aggMinMin1 (windowSlice W i (rows.map lowOfRow)))
    ∧ (aggMinMin1 (windowSlice W i (rows.map lowOfRow)) = none
        ↔ obs (windowSlice W i (rows.map lowOfRow)) = [])
    ∧ (vwapWCol W rows)[i]?
        = some (divOpt (aggSumMin1 (windowSlice W i (productCol rows)))
            (some (((windowSlice W i rows).map
              (fun r => (r.volume_total : ℚ))).sum))) := by
  have hiLT : i < (lastTradeCol rows).length := by
    rw [lastTradeCol, List.length_map]; exact hi
  have hwsne : windowSlice W i rows ≠ [] := by
    have hl := windowSlice_length W i rows hi
    intro hc
    rw [hc] at hl
    simp only [List.length_nil] at hl
    omega
  have hB : (obs (windowSlice W i (lastTradeCol rows))).length ≠ W →
      (volatilityCol W rows)[i]? = some none
      ∧ (movingAverageCol W rows)[i]? = some none
      ∧ (movingAverageWeightedCol W rows)[i]? = some none := by
    intro h
    refine ⟨?_, ?_, ?_⟩
    · rw [volatilityCol, rollCol_getElem _ _ _ i hiLT, aggVarFull,
        if_neg (fun hc => h hc.1)]
    · rw [movingAverageCol, rollCol_getElem _ _ _ i hiLT, aggMeanFull,
        if_neg h]
    · rw [movingAverageWeightedCol, rollCol_getElem _ _ _ i hiLT,
        aggWeightedFull, if_neg h]
  have hA : i + 1 < W →
      (volatilityCol W rows)[i]? = some none
      ∧ (movingAverageCol W rows)[i]? = some none
      ∧ (movingAverageWeightedCol W rows)[i]? = some none := by
    intro h
    apply hB
    have h1 := windowSlice_length W i (lastTradeCol rows) hiLT
    have h2 := obs_length_le (windowSlice W i (lastTradeCol rows))
    omega
  have hC : (obs (windowSlice W i (lastTradeCol rows))).length = W →
      (movingAverageCol W rows)[i]?
        = some (some ((obs (windowSlice W i (lastTradeCol rows))).sum / (W : ℚ)))
      ∧ (movingAverageWeightedCol W rows)[i]?
        = some (some (dotWeights 1 (obs (windowSlice W i (lastTradeCol rows)))
            / triangular W)) := by
    intro h
    constructor
    · rw [movingAverageCol, rollCol_getElem _ _ _ i hiLT, aggMeanFull,
        if_pos h]
    · rw [movingAverageWeightedCol, rollCol_getElem _ _ _ i hiLT,
        aggWeightedFull, if_pos h]
  refine ⟨hA, hB, hC, ?_, ?_, ?_, ?_, ?_, ?_, ?_, ?_, ?_, ?_, ?_, ?_, ?_, ?_,
    ?_, ?_⟩
  · unfold volumeTotalWCol volumeColQ
    rw [rollCol_getElem _ _ _ i (by rw [List.length_map]; exact hi),
      windowSlice_map, aggSumMin1_all_some _ _ hwsne]
  · unfold vabWCol vabColQ
    rw [rollCol_getElem _ _ _ i (by rw [List.length_map]; exact hi),
      windowSlice_map, aggSumMin1_all_some _ _ hwsne]
  · unfold vasWCol vasColQ
    rw [rollCol_getElem _ _ _ i (by rw [List.length_map]; exact hi),
      windowSlice_map, aggSumMin1_all_some _ _ hwsne]
  · unfold mcqWCol mcqColQ
    rw [rollCol_getElem _ _ _ i (by rw [List.length_map]; exact hi),
      windowSlice_map, aggSumMin1_all_some _ _ hwsne]
  · unfold mctWCol mctColQ
    rw [rollCol_getElem _ _ _ i (by rw [List.length_map]; exact hi),
      windowSlice_map, aggSumMin1_all_some _ _ hwsne]
  · rw [bidSizeMedianCol,
      rollCol_getElem _ _ _ i (by rw [bidSizeColQ, List.length_map]; exact hi)]
  · exact aggMedianMin1_eq_none_iff _
  · rw [askSizeMedianCol,
      rollCol_getElem _ _ _ i (by rw [askSizeColQ, List.length_map]; exact hi)]
  · exact aggMedianMin1_eq_none_iff _
  · rw [spreadMedianCol,
      rollCol_getElem _ _ _ i (by rw [spreadCol, List.length_map]; exact hi)]
  · exact aggMedianMin1_eq_none_iff _
  · rw [highPriceWCol,
      rollCol_getElem _ _ _ i (by rw [List.length_map]; exact hi)]
  · exact listMaxQ_eq_none_iff _
  · rw [lowPriceWCol,
      rollCol_getElem _ _ _ i (by rw [List.length_map]; exact hi)]
  · exact listMinQ_eq_none_iff _
  · rw [vwapWCol, List.getElem?_zipWith,
      rollCol_getElem _ _ (productCol rows) i
        (by rw [productCol, List.length_map]; exact hi),
      rollCol_getElem _ _ (volumeColQ rows) i
        (by rw [volumeColQ, List.length_map]; exact hi)]
    have hden : aggSumMin1 (windowSlice W i (volumeColQ rows))
        = some (((windowSlice W i rows).map
            (fun r => (r.volume_total : ℚ))).sum) := by
      rw [volumeColQ, windowSlice_map, aggSumMin1_all_some _ _ hwsne]
    rw [hden]

/-- Witness for C6: with `W = 2`, the volatility / moving-average family
is null on the first row of a concrete series. -/
theorem c6_rolling_window_policy_witness :
    (volatilityCol 2
        [⟨1, some 10, some 100, some 11, some 200, some 10, none, none,
          0, 0, 0, 1, 0⟩])[0]? = some none
    ∧ (movingAverageCol 2
        [⟨1, some 10, some 100, some 11, some 200, some 10, none, none,
          0, 0, 0, 1, 0⟩])[0]? = some none
    ∧ (movingAverageWeightedCol 2
        [⟨1, some 10, some 100, some 11, some 200, some 10, none, none,
          0, 0, 0, 1, 0⟩])[0]? = some none :=
  (c6_rolling_window_policy 2
    [⟨1, some 10, some 100, some 11, some 200, some 10, none, none,
      0, 0, 0, 1, 0⟩] 0 (by decide) (by decide)).1 (by decide)


lemma sum_pos_exists {α : Type} (g : α → ℕ) :
    ∀ (l : List α), 0 < (l.map g).sum → ∃ x ∈ l, 0 < g x := by
  intro l
  induction l with
  | nil => intro h; simp at h
  | cons a rest ih =>
    intro h
    rw [List.map_cons, List.sum_cons] at h
    by_cases ha : 0 < g a
    · exact ⟨a, List.mem_cons_self a rest, ha⟩
    · have : 0 < (rest.map g).sum := by omega
      obtain ⟨x, hx, hgx⟩ := ih this
      exact ⟨x, List.mem_cons_of_mem a hx, hgx⟩

lemma obs_map_eq_nil_iff {α : Type} (g : α → Option ℚ) :
    ∀ (l : List α), (obs (l.map g) = [] ↔ ∀ x ∈ l, g x = none) := by
  intro l
  induction l with
  | nil => simp [obs]
  | cons a rest ih =>
    rw [List.map_cons, obs, List.filterMap_cons]
    cases hga : g a with
    | none => simp only [obs] at ih; simp [ih, hga]
    | some v => simp [hga]

lemma obs_product_sum :
    ∀ (l : List SecondsRow),
      (obs (l.map (fun r =>
        r.vwap.map (fun v => v * (r.volume_total : ℚ))))).sum
        = (l.map (fun r => r.vwap.getD 0 * (r.volume_total : ℚ))).sum := by
  intro l
  induction l with
  | nil => simp [obs]
  | cons a rest ih =>
    rw [List.map_cons, obs, List.filterMap_cons, List.map_cons, List.sum_cons]
    simp only [obs] at ih
    cases hv : a.vwap with
    | none =>
      simp only [hv, Option.map_none', id_eq, Option.getD_none, zero_mul,
        zero_add]
      exact ih
    | some v =>
      simp only [hv, Option.map_some', id_eq, List.sum_cons, Option.getD_some]
      rw [ih]

lemma mem_of_mem_windowSlice {α : Type} {W i : ℕ} {xs : List α} {x : α}
    (h : x ∈ windowSlice W i xs) : x ∈ xs :=
  List.mem_of_mem_take (List.mem_of_mem_drop h)

lemma cast_sum_volume (l : List SecondsRow) :
    ((l.map (fun r => (r.volume_total : ℚ))).sum)
      = (((l.map (·.volume_total)).sum : ℕ) : ℚ) := by
  rw [Nat.cast_list_sum, List.map_map]
  rfl

/-- C7: whenever the trailing window holds positive volume (for input
produced by the resampler, where positive-volume rows carry a non-null
vwap), the rolling `vwap_W` at row `i` equals the window's volume-weighted
price sum (null-vwap rows contributing nothing) divided by the window's
total volume. -/
theorem c7_rolling_vwap (W : ℕ) (rows : List SecondsRow) (i : ℕ)
    (hW : 1 ≤ W) (hi : i < rows.length)
    (hinv : ∀ r ∈ rows, 0 < r.volume_total → r.vwap.isSome)
    (hvol : 0 < ((windowSlice W i rows).map (·.volume_total)).sum) :
    (vwapWCol W rows)[i]?
      = some (some (
          ((windowSlice W i rows).map
            (fun r => r.vwap.getD 0 * (r.volume_total : ℚ))).sum
          / (((windowSlice W i rows).map
            (fun r => (r.volume_total : ℚ))).sum))) := by
  have hwsne : windowSlice W i rows ≠ [] := by
    have hl := windowSlice_length W i rows hi
    intro hc
    rw [hc] at hl
    simp only [List.length_nil] at hl
    omega
  obtain ⟨r0, hr0mem, hr0pos⟩ := sum_pos_exists _ _ hvol
  have hr0some : (r0.vwap).isSome :=
    hinv r0 (mem_of_mem_windowSlice hr0mem) hr0pos
  have hnumobs : obs ((windowSlice W i rows).map (fun r =>
      r.vwap.map (fun v => v * (r.volume_total : ℚ)))) ≠ [] := by
    intro hc
    have hall := (obs_map_eq_nil_iff _ _).mp hc r0 hr0mem
    rw [Option.isSome_iff_exists] at hr0some
    obtain ⟨v, hv⟩ := hr0some
    rw [hv] at hall
    exact Option.noConfusion hall
  have hnum : aggSumMin1 (windowSlice W i (productCol rows))
      = some (((windowSlice W i rows).map
          (fun r => r.vwap.getD 0 * (r.volume_total : ℚ))).sum) := by
    rw [productCol, windowSlice_map, aggSumMin1, if_neg hnumobs,
      obs_product_sum]
  have hden : aggSumMin1 (windowSlice W i (volumeColQ rows))
      = some (((windowSlice W i rows).map
          (fun r => (r.volume_total : ℚ))).sum) := by
    rw [volumeColQ, windowSlice_map, aggSumMin1_all_some _ _ hwsne]
  have hdenpos : ((windowSlice W i rows).map
      (fun r => (r.volume_total : ℚ))).sum ≠ 0 := by
    rw [cast_sum_volume]
    have : (0 : ℚ) < (((windowSlice W i rows).map (·.volume_total)).sum : ℕ) :=
      by exact_mod_cast hvol
    exact ne_of_gt this
  rw [vwapWCol, List.getElem?_zipWith,
    rollCol_getElem _ _ (productCol rows) i
      (by rw [productCol, List.length_map]; exact hi),
    rollCol_getElem _ _ (volumeColQ rows) i
      (by rw [volumeColQ, List.length_map]; exact hi),
    hnum, hden]
  show some (divOpt _ _) = _
  rw [divOpt, if_neg hdenpos]

/-- Witness for C7 on a single-row series with volume 4 and vwap 3. -/
theorem c7_rolling_vwap_witness :
    (vwapWCol 2
        [⟨1, some 10, some 100, some 11, some 200, some 3, some 3, none,
          4, 0, 0, 1, 1⟩])[0]? = some (some ((3 * 4 : ℚ) / (4 : ℚ))) := by
  have h := c7_rolling_vwap 2
    [⟨1, some 10, some 100, some 11, some 200, some 3, some 3, none,
      4, 0, 0, 1, 1⟩] 0 (by decide) (by decide)
    (by intro r hr hpos; simp at hr; rw [hr]; rfl)
    (by decide)
  rw [h]
  norm_num [windowSlice]


/-- One window's worth of columns produced by `features_day`'s
`get_time_window_df` for a single window length: point-in-time quote and
trade snapshots plus VWAP/volume aggregates after the open and before the
close. -/
structure WindowFeat where
  bid_price_open : Option ℚ
  bid_size_open : Option ℕ
  ask_price_open : Option ℚ
  ask_size_open : Option ℕ
  last_trade_price_open : Option ℚ
  vwap_open : Option ℚ
  volume_total_open : ℕ
  bid_price_close : Option ℚ
  bid_size_close : Option ℕ
  ask_price_close : Option ℚ
  ask_size_close : Option ℕ
  last_trade_price_close : Option ℚ
  vwap_close : Option ℚ
  volume_total_close : ℕ
  deriving Repr, DecidableEq

/-- pandas `iloc[a:b]`. -/
def ilocSlice (rows : List SecondsRow) (a b : ℕ) : List SecondsRow :=
  (rows.take b).drop a

/-- `volume_total` summed over `iloc[a:b]` (pandas `.sum()`). -/
def sliceVolume (rows : List SecondsRow) (a b : ℕ) : ℕ :=
  ((ilocSlice rows a b).map (·.volume_total)).sum

/-- `(vwap * volume_total).sum() / volume_total.sum()` over `iloc[a:b]`;
pandas sums skip NaN terms and the float division by a zero volume yields
a non-finite value, modelled as `none`. -/
def sliceVwap (rows : List SecondsRow) (a b : ℕ) : Option ℚ :=
  if sliceVolume rows a b = 0 then none
  else some (((ilocSlice rows a b).map
      (fun r => r.vwap.getD 0 * (r.volume_total : ℚ))).sum
    / ((sliceVolume rows a b : ℕ) : ℚ))

/-- The per-window body of `get_time_window_df` with `o` the open anchor
row and `c` the close slice bound (`close row index + 1`): the snapshot
reads `time_series_df.at[...]` raise when out of range, modelled by
`none` for the whole window. -/
def buildWindow (rows : List SecondsRow) (o c : ℕ) (i : ℕ) :
    Option WindowFeat :=
  match rows[o + i - 1]?, rows[c - i]? with
  | some ro, some rc => some
    { bid_price_open := ro.bid_price
      bid_size_open := ro.bid_size
      ask_price_open := ro.ask_price
      ask_size_open := ro.ask_size
      last_trade_price_open := ro.last_trade_price
      vwap_open := sliceVwap rows o (o + i)
      volume_total_open := sliceVolume rows o (o + i)
      bid_price_close := rc.bid_price
      bid_size_close := rc.bid_size
      ask_price_close := rc.ask_price
      ask_size_close := rc.ask_size
      last_trade_price_close := rc.last_trade_price
      vwap_close := sliceVwap rows (c - i) c
      volume_total_close := sliceVolume rows (c - i) c }
  | _, _ => none

/-- `df.loc[mask].index[0]`: the first index satisfying the mask, `none`
when the selection is empty (pandas raises `IndexError`). -/
def firstMatch {α : Type} (p : α → Bool) : List α → Option ℕ
  | [] => none
  | x :: rest => if p x then some 0 else (firstMatch p rest).map (· + 1)

/-- `features_day.get_time_window_df`: look up the rows whose timestamp
equals the open/close anchors exactly, then build one `WindowFeat` per
window length; any failed lookup or out-of-range snapshot read raises,
modelled as `none`. -/
def get_time_window_df (rows : List SecondsRow) (windows : List ℕ)
    (open_t close_t : ℚ) : Option (List WindowFeat) :=
  match firstMatch (fun r => decide ((r.timestamp : ℚ) = open_t)) rows,
      firstMatch (fun r => decide ((r.timestamp : ℚ) = close_t)) rows with
  | some o, some c => windows.mapM (buildWindow rows o (c + 1))
  | _, _ => none

lemma firstMatch_eq_none_iff {α : Type} (p : α → Bool) :
    ∀ l : List α, firstMatch p l = none ↔ ∀ x ∈ l, p x = false := by
  intro l
  induction l with
  | nil => simp [firstMatch]
  | cons a rest ih =>
    rw [firstMatch]
    by_cases ha : p a
    · simp [ha]
    · rw [if_neg ha]
      simp only [Option.map_eq_none', ih]
      constructor
      · intro h x hx
        rcases List.mem_cons.mp hx with hxa | hxr
        · subst hxa; exact Bool.eq_false_iff.mpr ha
        · exact h x hxr
      · intro h x hx
        exact h x (List.mem_cons_of_mem a hx)

lemma firstMatch_eq_some {α : Type} (p : α → Bool) :
    ∀ (l : List α) (n : ℕ), firstMatch p l = some n →
      ∃ x, l[n]? = some x ∧ p x = true
        ∧ ∀ j < n, ∀ y, l[j]? = some y → p y = false := by
  intro l
  induction l with
  | nil => intro n h; simp [firstMatch] at h
  | cons a rest ih =>
    intro n h
    rw [firstMatch] at h
    by_cases ha : p a
    · rw [if_pos ha] at h
      have hn : n = 0 := (Option.some_injective _ h).symm
      subst hn
      exact ⟨a, by simp, ha, fun j hj => absurd hj (by omega)⟩
    · rw [if_neg ha] at h
      rw [Option.map_eq_some'] at h
      obtain ⟨m, hm, hnm⟩ := h
      obtain ⟨x, hx, hpx, hmin⟩ := ih m hm
      refine ⟨x, ?_, hpx, ?_⟩
      · rw [← hnm, List.getElem?_cons_succ]
        exact hx
      · intro j hj y hy
        cases j with
        | zero =>
          rw [List.getElem?_cons_zero] at hy
          have hya : y = a := (Option.some_injective _ hy).symm
          subst hya
          exact Bool.eq_false_iff.mpr ha
        | succ k =>
          rw [List.getElem?_cons_succ] at hy
          exact hmin k (by omega) y hy

/-- C8: `get_time_window_df` anchors its slices at the rows whose
timestamps equal the open/close boundaries exactly (the first such row);
when no row matches an anchor exactly the computation fails with an error
and produces no output. -/
theorem c8_boundary_anchor (rows : List SecondsRow) (windows : List ℕ)
    (open_t close_t : ℚ) :
    ((∀ r ∈ rows, (r.timestamp : ℚ) ≠ open_t) →
      get_time_window_df rows windows open_t close_t = none)
    ∧ ((∀ r ∈ rows, (r.timestamp : ℚ) ≠ close_t) →
      get_time_window_df rows windows open_t close_t = none)
    ∧ (∀ o c,
        firstMatch (fun r => decide ((r.timestamp : ℚ) = open_t)) rows
          = some o →
        firstMatch (fun r => decide ((r.timestamp : ℚ) = close_t)) rows
          = some c →
        (∃ ro, rows[o]? = some ro ∧ (ro.timestamp : ℚ) = open_t
          ∧ ∀ j < o, ∀ rj, rows[j]? = some rj → (rj.timestamp : ℚ) ≠ open_t)
        ∧ (∃ rc, rows[c]? = some rc ∧ (rc.timestamp : ℚ) = close_t)
        ∧ get_time_window_df rows windows open_t close_t
            = windows.mapM (buildWindow rows o (c + 1))) := by
  refine ⟨?_, ?_, ?_⟩
  · intro h
    have hnone : firstMatch (fun r => decide ((r.timestamp : ℚ) = open_t)) rows
        = none :=
      (firstMatch_eq_none_iff _ rows).mpr
        (fun x hx => decide_eq_false (h x hx))
    rw [get_time_window_df, hnone]
  · intro h
    have hnone : firstMatch (fun r => decide ((r.timestamp : ℚ) = close_t)) rows
        = none :=
      (firstMatch_eq_none_iff _ rows).mpr
        (fun x hx => decide_eq_false (h x hx))
    rw [get_time_window_df, hnone]
    cases firstMatch (fun r => decide ((r.timestamp : ℚ) = open_t)) rows <;> rfl
  · intro o c ho hc
    obtain ⟨ro, hro, hpo, hmino⟩ := firstMatch_eq_some _ rows o ho
    obtain ⟨rc, hrc, hpc, _⟩ := firstMatch_eq_some _ rows c hc
    refine ⟨⟨ro, hro, of_decide_eq_true hpo, ?_⟩,
      ⟨rc, hrc, of_decide_eq_true hpc⟩, ?_⟩
    · intro j hj rj hrj
      exact of_decide_eq_false (hmino j hj rj hrj)
    · rw [get_time_window_df, ho, hc]

/-- Witness for C8: with exact anchor matches at timestamps 1 and 2 the
slicer output is the per-window build at those indices; the minimality
and lookup facts are discharged on the same concrete series. -/
theorem c8_boundary_anchor_witness :
    get_time_window_df
        [⟨1, some 10, some 100, some 11, some 200, some 10, none, none,
          0, 0, 0, 1, 0⟩,
          ⟨2, some 10, some 100, some 11, some 200, some 10, none, none,
            0, 0, 0, 0, 0⟩] [1] 1 2
      = ([1].mapM (buildWindow
          [⟨1, some 10, some 100, some 11, some 200, some 10, none, none,
            0, 0, 0, 1, 0⟩,
            ⟨2, some 10, some 100, some 11, some 200, some 10, none, none,
              0, 0, 0, 0, 0⟩] 0 2)) :=
  ((c8_boundary_anchor
    [⟨1, some 10, some 100, some 11, some 200, some 10, none, none,
      0, 0, 0, 1, 0⟩,
      ⟨2, some 10, some 100, some 11, some 200, some 10, none, none,
        0, 0, 0, 0, 0⟩] [1] 1 2).2.2 0 1 (by decide) (by decide)).2.2


/-- The number of leading trades with timestamp at most `T` nanoseconds:
for a sorted stream, the number of trades at or before that instant. -/
def countLE (trades : List Trade) (T : ℕ) : ℕ :=
  (trades.takeWhile (fun td => td.sip_timestamp ≤ T)).length

lemma countLE_mono (trades : List Trade) {T T' : ℕ} (h : T ≤ T') :
    countLE trades T ≤ countLE trades T' := by
  induction trades with
  | nil => simp [countLE]
  | cons a l ih =>
    by_cases ha : a.sip_timestamp ≤ T
    · have ha' : a.sip_timestamp ≤ T' := le_trans ha h
      simp only [countLE, List.takeWhile_cons, decide_eq_true_eq, if_pos ha,
        if_pos ha', List.length_cons]
      simp only [countLE] at ih
      omega
    · simp only [countLE, List.takeWhile_cons, decide_eq_true_eq, if_neg ha,
        List.length_nil]
      omega

lemma takeWhile_mono_take (trades : List Trade) {T T' : ℕ} (h : T ≤ T') :
    trades.takeWhile (fun td => td.sip_timestamp ≤ T)
      = (trades.takeWhile (fun td => td.sip_timestamp ≤ T')).take
          (countLE trades T) := by
  induction trades with
  | nil => simp
  | cons a l ih =>
    by_cases ha : a.sip_timestamp ≤ T
    · have ha' : a.sip_timestamp ≤ T' := le_trans ha h
      simp only [List.takeWhile_cons, decide_eq_true_eq, if_pos ha,
        if_pos ha', countLE, List.length_cons]
      rw [List.take_succ_cons]
      simp only [countLE] at ih
      exact congrArg (a :: ·) ih
    · simp only [List.takeWhile_cons, decide_eq_true_eq, if_neg ha, countLE,
        List.length_nil, List.take_zero]

lemma drop_takeWhile_comm (trades : List Trade) {d T : ℕ}
    (hd : d ≤ countLE trades T) :
    (trades.drop d).takeWhile (fun td => td.sip_timestamp ≤ T)
      = (trades.takeWhile (fun td => td.sip_timestamp ≤ T)).drop d := by
  induction trades generalizing d with
  | nil => simp
  | cons a l ih =>
    cases d with
    | zero => simp
    | succ k =>
      have ha : a.sip_timestamp ≤ T := by
        by_contra hc
        simp only [countLE, List.takeWhile_cons, decide_eq_true_eq, if_neg hc,
          List.length_nil] at hd
        omega
      have hk : k ≤ countLE l T := by
        simp only [countLE, List.takeWhile_cons, decide_eq_true_eq, if_pos ha,
          List.length_cons] at hd
        simp only [countLE]
        omega
      rw [List.drop_succ_cons, ih hk, List.takeWhile_cons]
      simp only [decide_eq_true_eq, if_pos ha, List.drop_succ_cons]

lemma sorted_takeWhile_eq_filter (trades : List Trade)
    (hst : TradesSorted trades) (T : ℕ) :
    trades.takeWhile (fun td => td.sip_timestamp ≤ T)
      = trades.filter (fun td => td.sip_timestamp ≤ T) := by
  induction trades with
  | nil => rfl
  | cons a l ih =>
    obtain ⟨hrel, htail⟩ := List.pairwise_cons.mp hst
    by_cases ha : a.sip_timestamp ≤ T
    · rw [List.takeWhile_cons, List.filter_cons, if_pos (by simpa using ha),
        if_pos (by simpa using ha), ih htail]
    · rw [List.takeWhile_cons, if_neg (by simpa using ha), List.filter_cons,
        if_neg (by simpa using ha)]
      have : l.filter (fun td => td.sip_timestamp ≤ T) = [] := by
        rw [List.filter_eq_nil_iff]
        intro x hx
        simp only [decide_eq_true_eq]
        have := hrel x hx
        omega
      rw [this]

lemma chain'_head_le_getLast :
    ∀ (l : List ℕ), List.Chain' (fun a b : ℕ => a ≤ b) l →
      ∀ a b, l.head? = some a → l.getLast? = some b → a ≤ b := by
  intro l
  induction l with
  | nil => intro _ a b ha; cases ha
  | cons x rest ih =>
    intro hc a b ha hb
    have hax : a = x := by simpa using ha.symm
    subst hax
    cases rest with
    | nil =>
      have : a = b := by simpa using hb
      omega
    | cons y rest2 =>
      rw [List.getLast?_cons_cons] at hb
      have hxy : a ≤ y := (List.chain'_cons.mp hc).1
      have hyb : y ≤ b := ih (List.chain'_cons.mp hc).2 y b rfl hb
      omega

lemma sum_map_take_drop {α : Type} (f : α → ℕ) (u : List α) (d m : ℕ)
    (h : d ≤ m) :
    (((u.take m).drop d).map f).sum + ((u.drop m).map f).sum
      = ((u.drop d).map f).sum := by
  rw [List.drop_take]
  have hdm : u.drop m = (u.drop d).drop (m - d) := by
    rw [List.drop_drop]
    congr 1
    omega
  rw [hdm, ← List.sum_append, ← List.map_append, List.take_append_drop]

lemma foldl_tradeStep_volume (b a : Option ℚ) :
    ∀ (l : List Trade) (acc : TradeAcc),
      (l.foldl (tradeStep b a) acc).volume
        = acc.volume + (l.map (·.size)).sum := by
  intro l
  induction l with
  | nil => intro acc; simp
  | cons td rest ih =>
    intro acc
    rw [List.foldl_cons, ih]
    simp [tradeStep]
    omega

lemma processSecond_row_volume (quotes : List Quote) (trades : List Trade)
    (s : LoopState) (t : ℕ) :
    (processSecond quotes trades s t).2.volume_total
      = (((trades.drop s.trades_row).takeWhile
          (fun td => td.sip_timestamp ≤ t * nanos)).map (·.size)).sum := by
  show (((trades.drop s.trades_row).takeWhile
      (fun td => td.sip_timestamp ≤ t * nanos)).foldl (tradeStep _ _)
        _).volume = _
  rw [foldl_tradeStep_volume]
  simp

lemma processSecond_trades_row (quotes : List Quote) (trades : List Trade)
    (s : LoopState) (t : ℕ) :
    (processSecond quotes trades s t).1.trades_row
      = s.trades_row + ((trades.drop s.trades_row).takeWhile
          (fun td => td.sip_timestamp ≤ t * nanos)).length := rfl

lemma processSecond_trades_row_countLE (quotes : List Quote)
    (trades : List Trade) (s : LoopState) (t : ℕ)
    (hd : s.trades_row ≤ countLE trades (t * nanos)) :
    (processSecond quotes trades s t).1.trades_row
      = countLE trades (t * nanos) := by
  rw [processSecond_trades_row, drop_takeWhile_comm trades hd,
    List.length_drop]
  show s.trades_row + (countLE trades (t * nanos) - s.trades_row) = _
  omega


/-- Per-row characterization of the trade cursor: along ascending row
timestamps, the row at index `i` consumes exactly the trades strictly
between the cumulative counts at the previous and the current second, so
each trade at or before the final timestamp is consumed in exactly one
row and trades beyond the last processed timestamp are never consumed. -/
lemma runSeconds_trade_char (quotes : List Quote) (trades : List Trade) :
    ∀ (ts : List ℕ) (s : LoopState),
      List.Chain' (fun a b : ℕ => a ≤ b) ts →
      (∀ t0, ts.head? = some t0 →
        s.trades_row ≤ countLE trades (t0 * nanos)) →
      ∀ i r, (runSeconds quotes trades s ts)[i]? = some r →
        r.message_count_trade
          = countLE trades (r.timestamp * nanos)
            - (if i = 0 then s.trades_row
               else countLE trades ((ts.getD (i - 1) 0) * nanos))
        ∧ r.volume_total
          = (((trades.takeWhile
                (fun td => td.sip_timestamp ≤ r.timestamp * nanos)).drop
              (if i = 0 then s.trades_row
               else countLE trades ((ts.getD (i - 1) 0) * nanos))).map
              (·.size)).sum := by
  intro ts
  induction ts with
  | nil => intro s _ _ i r hr; simp [runSeconds] at hr
  | cons t rest ih =>
    intro s hchain hhead i r hr
    have hd : s.trades_row ≤ countLE trades (t * nanos) := hhead t rfl
    have hcons := drop_takeWhile_comm trades (T := t * nanos) hd
    rw [show runSeconds quotes trades s (t :: rest)
        = (processSecond quotes trades s t).2 ::
            runSeconds quotes trades (processSecond quotes trades s t).1 rest
      from rfl] at hr
    have hs1 := processSecond_trades_row_countLE quotes trades s t hd
    cases i with
    | zero =>
      rw [List.getElem?_cons_zero] at hr
      have hre : r = (processSecond quotes trades s t).2 :=
        (Option.some_injective _ hr).symm
      subst hre
      rw [if_pos rfl, processSecond_timestamp]
      constructor
      · rw [processSecond_row_mct, hcons, List.length_drop]
        rfl
      · rw [processSecond_row_volume, hcons]
    | succ j =>
      rw [List.getElem?_cons_succ] at hr
      have hch2 : List.Chain' (fun a b : ℕ => a ≤ b) rest := hchain.tail
      have hhead2 : ∀ t0, rest.head? = some t0 →
          (processSecond quotes trades s t).1.trades_row
            ≤ countLE trades (t0 * nanos) := by
        intro t0 h0
        rw [hs1]
        cases rest with
        | nil => cases h0
        | cons t2 r2 =>
          have ht0 : t0 = t2 := by simpa using h0.symm
          subst ht0
          exact countLE_mono trades
            (Nat.mul_le_mul_right _ (List.chain'_cons.mp hchain).1)
      have hres := ih (processSecond quotes trades s t).1 hch2 hhead2 j r hr
      cases j with
      | zero =>
        rw [if_pos rfl, hs1] at hres
        rw [if_neg (Nat.succ_ne_zero 0)]
        simpa using hres
      | succ k =>
        rw [if_neg (Nat.succ_ne_zero k)] at hres
        rw [if_neg (Nat.succ_ne_zero (k + 1))]
        simpa [List.getD_cons_succ] using hres

/-- The total volume over a run equals the size total of the trades
between the initial cursor and the cumulative count at the final
timestamp. -/
lemma runSeconds_volume_total (quotes : List Quote) (trades : List Trade) :
    ∀ (ts : List ℕ) (s : LoopState) (tL : ℕ),
      ts.getLast? = some tL →
      List.Chain' (fun a b : ℕ => a ≤ b) ts →
      (∀ t0, ts.head? = some t0 →
        s.trades_row ≤ countLE trades (t0 * nanos)) →
      ((runSeconds quotes trades s ts).map (·.volume_total)).sum
        = (((trades.takeWhile
            (fun td => td.sip_timestamp ≤ tL * nanos)).drop
              s.trades_row).map (·.size)).sum := by
  intro ts
  induction ts with
  | nil => intro s tL h; cases h
  | cons t rest ih =>
    intro s tL hlast hchain hhead
    have hd : s.trades_row ≤ countLE trades (t * nanos) := hhead t rfl
    have hcons := drop_takeWhile_comm trades (T := t * nanos) hd
    have hs1 := processSecond_trades_row_countLE quotes trades s t hd
    rw [show runSeconds quotes trades s (t :: rest)
        = (processSecond quotes trades s t).2 ::
            runSeconds quotes trades (processSecond quotes trades s t).1 rest
      from rfl, List.map_cons, List.sum_cons]
    cases rest with
    | nil =>
      have htL : t = tL := by simpa using hlast
      subst htL
      rw [show runSeconds quotes trades
          (processSecond quotes trades s t).1 [] = [] from rfl]
      rw [processSecond_row_volume, hcons]
      simp
    | cons t2 r2 =>
      rw [List.getLast?_cons_cons] at hlast
      have httL : t ≤ tL :=
        chain'_head_le_getLast (t :: t2 :: r2) hchain t tL rfl
          (by rw [List.getLast?_cons_cons]; exact hlast)
      have hIH := ih (processSecond quotes trades s t).1 tL hlast
        hchain.tail
        (by
          intro t0 h0
          rw [hs1]
          have ht0 : t0 = t2 := by simpa using h0.symm
          subst ht0
          exact countLE_mono trades
            (Nat.mul_le_mul_right _ (List.chain'_cons.mp hchain).1))
      rw [hIH, hs1, processSecond_row_volume, hcons,
        takeWhile_mono_take trades (Nat.mul_le_mul_right nanos httL)]
      exact sum_map_take_drop (fun td : Trade => td.size) _ s.trades_row
        (countLE trades (t * nanos)) hd


lemma initSecondsTimestamps_chain (quotes : List Quote) :
    List.Chain' (fun a b : ℕ => a ≤ b) (initSecondsTimestamps quotes) := by
  apply List.Pairwise.chain'
  rw [initSecondsTimestamps, List.pairwise_map]
  exact (List.pairwise_lt_range _).imp (fun h => by omega)

lemma initSecondsTimestamps_getLast (quotes : List Quote)
    (hse : startSecond quotes ≤ endSecond quotes) :
    (initSecondsTimestamps quotes).getLast? = some (endSecond quotes) := by
  rw [List.getLast?_eq_getElem?, initSecondsTimestamps_length,
    initSecondsTimestamps_getElem quotes _ (by omega)]
  congr 1
  omega

/-- C10: with sorted inputs, the row at index `i` consumes exactly the
trades between the cumulative at-or-before counts of the previous and the
current second (all earlier trades falling into the first row), so every
trade at or before the series end is consumed in exactly one row; the
total of `volume_total` over all rows equals the total size of the trades
timestamped at or before the series end, later trades being silently
dropped. -/
theorem c10_trade_consumption (quotes : List Quote) (trades : List Trade)
    (hne : quotes ≠ []) (hsq : QuotesSorted quotes)
    (hst : TradesSorted trades) :
    (∀ i r, (get_seconds_df quotes trades)[i]? = some r →
      r.message_count_trade
        = countLE trades (r.timestamp * nanos)
          - (if i = 0 then 0
             else countLE trades ((startSecond quotes + (i - 1)) * nanos))
      ∧ r.volume_total
        = (((trades.takeWhile
              (fun td => td.sip_timestamp ≤ r.timestamp * nanos)).drop
            (if i = 0 then 0
             else countLE trades
               ((startSecond quotes + (i - 1)) * nanos))).map
            (·.size)).sum)
    ∧ ((get_seconds_df quotes trades).map (·.volume_total)).sum
        = ((trades.filter
            (fun td => td.sip_timestamp ≤ endSecond quotes * nanos)).map
            (·.size)).sum := by
  have hse := startSecond_le_endSecond quotes hne hsq
  have hchain := initSecondsTimestamps_chain quotes
  constructor
  · intro i r hr
    have hchar := runSeconds_trade_char quotes trades
      (initSecondsTimestamps quotes)
      ⟨0, 0, none, none⟩ hchain (fun t0 _ => Nat.zero_le _) i r hr
    rcases Nat.eq_zero_or_pos i with hi0 | hipos
    · subst hi0
      simpa using hchar
    · have hwlen : i < (get_seconds_df quotes trades).length :=
        (List.getElem?_eq_some_iff.mp hr).1
      have hlen : (get_seconds_df quotes trades).length
          = (initSecondsTimestamps quotes).length :=
        runSeconds_length quotes trades (initSecondsTimestamps quotes) _
      have hilen : i < (initSecondsTimestamps quotes).length := by omega
      have hgetD : (initSecondsTimestamps quotes).getD (i - 1) 0
          = startSecond quotes + (i - 1) := by
        rw [List.getD_eq_getElem?_getD,
          initSecondsTimestamps_getElem quotes (i - 1)
            (by rw [initSecondsTimestamps_length] at hilen; omega)]
        rfl
      rw [if_neg (by omega), hgetD] at hchar
      rw [if_neg (show ¬ i = 0 by omega)]
      exact hchar
  · have h2 := runSeconds_volume_total quotes trades
      (initSecondsTimestamps quotes) ⟨0, 0, none, none⟩ (endSecond quotes)
      (initSecondsTimestamps_getLast quotes hse) hchain
      (fun t0 _ => Nat.zero_le _)
    rw [sorted_takeWhile_eq_filter trades hst] at h2
    simpa using h2

/-- Witness for C10: a trade inside the series span is counted once and a
trade after the series end is dropped, so the total volume is 5. -/
theorem c10_trade_consumption_witness :
    ((get_seconds_df
        [⟨1 * nanos, 10, 1, 11, 2⟩, ⟨2 * nanos, 10, 1, 11, 2⟩]
        [⟨1, 1500000000, 20, 5, []⟩, ⟨2, 10 * nanos, 30, 7, []⟩]).map
      (·.volume_total)).sum = 5 := by
  have h := (c10_trade_consumption
    [⟨1 * nanos, 10, 1, 11, 2⟩, ⟨2 * nanos, 10, 1, 11, 2⟩]
    [⟨1, 1500000000, 20, 5, []⟩, ⟨2, 10 * nanos, 30, 7, []⟩]
    (by decide) (by unfold QuotesSorted; decide)
    (by unfold TradesSorted; decide)).2
  rw [h]
  decide

end Reup
